import Mathlib

/-!
Shallow embedding of `Algorithms_QRAP_NC.py` over exact rationals.

The Python source implements four solvers for quadratic resource allocation
problems with nested constraints:
  * `QRAP_median`            (the base allocator, median-of-breakpoints search),
  * `QRAP_NC_decomposition`  (divide-and-conquer merge decomposition, MDA),
  * `QRAP_NC_seq`            (sequential sweep with heaps and deques),
  * `QRAP_NC_infeasible`     (recursive infeasibility-guided decomposition).

Conventions of the embedding:
  * Python floats are modelled by `ℚ`; the tolerance constants `10**(-6)` and
    `pow(10,-5)` become the rationals `tolQ` and `tolV`.
  * Python lists become `List ℚ`; indexing `xs[j]` becomes `xs.getD j 0`.
    Theorems carry the length hypotheses under which the Python indexing is
    in range, so the default value is never observable there.
  * Loops whose termination is not structural are run on explicit fuel that
    dominates the iteration count of the Python loop; running out of fuel is
    a distinguished outcome that the theorems never rely on.
  * A Python `ZeroDivisionError` inside `QRAP_NC_seq` is modelled by `Option`
    (`none` = the call raises); `QRAP_median`, `QRAP_NC_decomposition` use
    total rational division, and every theorem about them carries the
    positivity hypotheses under which the Python division is defined.
-/

/-- Tolerance `10**(-6)` used by `QRAP_median` and `QRAP_NC_seq`. -/
def tolQ : ℚ := 1 / 1000000

/-- Tolerance `pow(10,-5)` used by the violation scan of `QRAP_NC_infeasible`. -/
def tolV : ℚ := 1 / 100000

/-- Python `min` over a list (the source calls it on a nonempty list). -/
def listMin : List ℚ → ℚ
  | [] => 0
  | x :: xs => xs.foldl min x

/-- Sum of a list of rationals. -/
def sumList (xs : List ℚ) : ℚ := xs.foldl (· + ·) 0

/-- Insert a value into an ascending list (helper for `insort`). -/
def insortInsert (x : ℚ) : List ℚ → List ℚ
  | [] => [x]
  | y :: ys => if x ≤ y then x :: y :: ys else y :: insortInsert x ys

/-- Ascending insertion sort; the values agree with Python `sorted`. -/
def insort : List ℚ → List ℚ
  | [] => []
  | x :: xs => insortInsert x (insort xs)

/-- Python `statistics.median`: middle element of the sorted data for odd
length, mean of the two middle elements for even length. -/
def pymedian (xs : List ℚ) : ℚ :=
  let s := insort xs
  let n := s.length
  if n % 2 = 1 then s.getD (n / 2) 0
  else (s.getD (n / 2 - 1) 0 + s.getD (n / 2) 0) / 2

/-- The componentwise clipped vector
`[max(lower_bound[j], min(upper_bound[j], objective_par[j]*m)) for j in range(num_var)]`
that both return statements of `QRAP_median` produce (lines 58 and 91). -/
def clipVec (a l u : List ℚ) (m : ℚ) : List ℚ :=
  (List.range a.length).map
    (fun j => max (l.getD j 0) (min (u.getD j 0) (a.getD j 0 * m)))

/-- Test `upper_breakpoint_bound <= x` where the bound may be `math.inf`
(`none`); `math.inf <= x` is false for every finite `x`. -/
def infLe (ub : Option ℚ) (x : ℚ) : Bool :=
  match ub with
  | none => false
  | some b => decide (b ≤ x)

/-- Outcome of the main loop of `QRAP_median`: `matched` is the early return
at line 56-59 (candidate sum within tolerance of the resource value);
`exhausted` is the fall-through exit of the `while` loop at line 40 with the
final `fixed`, `free` and `lower_breakpoint_bound` accumulators; `fuelOut`
cannot arise for the fuel `QRAP_median` supplies (the candidate breakpoint
list shrinks strictly every iteration) and carries the same data. -/
inductive MedianExit where
  | matched (m : ℚ)
  | exhausted (F G lbb : ℚ)
  | fuelOut (F G lbb : ℚ)
  deriving Repr, DecidableEq

/-- One candidate sum of `QRAP_median` (lines 45-53): undecided variables
contribute `u`, `l`, or `a * candidate` according to their breakpoints, and
the decided variables contribute `fixed + free * candidate`. -/
def medianSum (a l u lbps ubps : List ℚ) (und : List ℕ) (F G cand : ℚ) : ℚ :=
  und.foldl
    (fun s j =>
      s + (if ubps.getD j 0 ≤ cand then u.getD j 0
           else if lbps.getD j 0 ≥ cand then l.getD j 0
           else a.getD j 0 * cand)) 0
  + F + G * cand

/-- The per-iteration reclassification of undecided variables of
`QRAP_median` (lines 69-83), returning the new undecided list and the
updated `fixed` and `free` accumulators. -/
def medianClassify (a l u lbps ubps : List ℚ) (lbb : ℚ) (ubb : Option ℚ) :
    List ℕ → ℚ → ℚ → List ℕ × ℚ × ℚ
  | [], F, G => ([], F, G)
  | j :: rest, F, G =>
    if ubps.getD j 0 ≤ lbb then
      medianClassify a l u lbps ubps lbb ubb rest (F + u.getD j 0) G
    else if lbps.getD j 0 ≤ lbb ∧ infLe ubb (ubps.getD j 0) then
      medianClassify a l u lbps ubps lbb ubb rest F (G + a.getD j 0)
    else if infLe ubb (lbps.getD j 0) then
      medianClassify a l u lbps ubps lbb ubb rest (F + l.getD j 0) G
    else
      let r := medianClassify a l u lbps ubps lbb ubb rest F G
      (j :: r.1, r.2)

/-- The `while` loop of `QRAP_median` (lines 40-83), run on fuel.  State:
remaining candidate breakpoints, undecided variable indices, bracket bounds
`lower_breakpoint_bound` / `upper_breakpoint_bound` (`none` = `math.inf`),
and the `fixed` / `free` accumulators. -/
def QRAP_median_loop (a l u lbps ubps : List ℚ) (R : ℚ) :
    ℕ → List ℚ → List ℕ → ℚ → Option ℚ → ℚ → ℚ → MedianExit
  | _, _, [], lbb, _, F, G => MedianExit.exhausted F G lbb
  | _, [], _ :: _, lbb, _, F, G => MedianExit.exhausted F G lbb
  | 0, _ :: _, _ :: _, lbb, _, F, G => MedianExit.fuelOut F G lbb
  | fuel + 1, bp :: bps, j :: und, lbb, ubb, F, G =>
    let bpsAll := bp :: bps
    let undAll := j :: und
    let cand := pymedian bpsAll
    let S := medianSum a l u lbps ubps undAll F G cand
    if |S - R| ≤ tolQ then MedianExit.matched cand
    else if S > R then
      let bps' := bpsAll.filter (fun x => decide (x < cand))
      let c := medianClassify a l u lbps ubps lbb (some cand) undAll F G
      QRAP_median_loop a l u lbps ubps R fuel bps' c.1 lbb (some cand) c.2.1 c.2.2
    else
      let bps' := bpsAll.filter (fun x => decide (x > cand))
      let c := medianClassify a l u lbps ubps cand ubb undAll F G
      QRAP_median_loop a l u lbps ubps R fuel bps' c.1 cand ubb c.2.1 c.2.2

/-- Breakpoints `[bound[j]/objective_par[j] for j in range(num_var)]`
(lines 28-29).  Python raises on `objective_par[j] == 0`; the embedding uses
the rational convention `x / 0 = 0`, and theorems that depend on breakpoint
values assume positive coefficients. -/
def medianBps (a bound : List ℚ) : List ℚ :=
  (List.range a.length).map (fun j => bound.getD j 0 / a.getD j 0)

/-- Run the main loop of `QRAP_median` from its initial state (lines 27-37):
all `2 * num_var` breakpoints are candidates, every variable is undecided,
`lower_breakpoint_bound = min(current_breakpoints)` and
`upper_breakpoint_bound = math.inf`.  The fuel exceeds the candidate count,
and each iteration strictly shrinks the candidate list, so `fuelOut` is
unreachable. -/
def medianRun (a l u : List ℚ) (R : ℚ) : MedianExit :=
  let lbps := medianBps a l
  let ubps := medianBps a u
  let bps := lbps ++ ubps
  QRAP_median_loop a l u lbps ubps R (bps.length + 1) bps
    (List.range a.length) (listMin bps) none 0 0

/-- `QRAP_median(objective_par, lower_bound, upper_bound, resource_value)`
(lines 23-92): the base QRAP allocator.  Both exits produce the clipped
vector, from the matched candidate multiplier or from
`(resource_value - fixed)/free` (`lower_breakpoint_bound` when `free == 0`).
The function performs no input validation and no infeasibility detection. -/
def QRAP_median (a l u : List ℚ) (R : ℚ) : List ℚ :=
  match medianRun a l u R with
  | MedianExit.matched m => clipVec a l u m
  | MedianExit.exhausted F G lbb =>
      clipVec a l u (if G = 0 then lbb else (R - F) / G)
  | MedianExit.fuelOut F G lbb =>
      clipVec a l u (if G = 0 then lbb else (R - F) / G)

/-- The violation scan of `QRAP_NC_infeasible` (lines 620-635): walk the
prefix sums of the relaxed solution and record the index of the violation of
largest magnitude (strict `>` comparison, so the first maximum wins), with
`Violation_type` 1 for an upper violation, 0 for a lower violation and `-1`
when no violation was found.  Returns
`(VAR_sum, Max_index, Violation_value, Violation_type)`. -/
def violationScan (Sol L2 U2 : List ℚ) : ℚ × ℤ × ℚ × ℤ :=
  (List.range Sol.length).foldl
    (fun st i =>
      let s := st.1 + Sol.getD i 0
      let M := st.2.1
      let V := st.2.2.1
      let T := st.2.2.2
      if s > U2.getD i 0 + tolV then
        if s - U2.getD i 0 > V then (s, (i : ℤ), s - U2.getD i 0, 1)
        else (s, M, V, T)
      else if s < L2.getD i 0 - tolV then
        if L2.getD i 0 - s > V then (s, (i : ℤ), L2.getD i 0 - s, 0)
        else (s, M, V, T)
      else (s, M, V, T))
    (0, -1, 0, -1)

/-- Subtract `c` from every entry with index `> M` (the propagation loops at
lines 640-642 and 645-647 of `QRAP_NC_infeasible`). -/
def pinShift (xs : List ℚ) (M : ℕ) (c : ℚ) : List ℚ :=
  xs.mapIdx (fun i v => if M < i then v - c else v)

/-- The recursion of `QRAP_NC_infeasible` (lines 599-653) on explicit fuel.
Both nested-bound lists are first copied (lines 605-606).  Base case
`num_var == 1` returns `[upper_nested2[0]]`.  Otherwise the relaxation with
resource value `upper_nested2[num_var-1]` is solved by `QRAP_median`, the
most violated nested constraint is located, the nested bounds are pinned at
that index and shifted after it, and the two sub-instances are solved
recursively; the slices are Python's `list[0:M+1]` and `list[M+1:num_var]`.
`none` models fuel exhaustion, which a terminating Python run never hits for
the supplied fuel as long as the split index stays below `num_var - 1`. -/
def QRAP_NC_infeasible_go :
    ℕ → List ℚ → List ℚ → List ℚ → List ℚ → List ℚ → Option (List ℚ)
  | 0, _, _, _, _, _ => none
  | fuel + 1, a, l, u, L, U =>
    let n := a.length
    let L2 := (List.range n).map (fun i => L.getD i 0)
    let U2 := (List.range n).map (fun i => U.getD i 0)
    if n = 1 then some [U2.getD 0 0]
    else
      let Sol := QRAP_median a l u (U2.getD (n - 1) 0)
      let scan := violationScan Sol L2 U2
      let M := scan.2.1.toNat
      let T := scan.2.2.2
      if T = -1 then some Sol
      else
        let L2' := if T = 1 then
            pinShift (L2.set M (U2.getD M 0)) M (U2.getD M 0)
          else pinShift L2 M (L2.getD M 0)
        let U2' := if T = 1 then
            pinShift U2 M (U2.getD M 0)
          else pinShift (U2.set M (L2.getD M 0)) M (L2.getD M 0)
        match QRAP_NC_infeasible_go fuel (a.take (M + 1)) (l.take (M + 1))
            (u.take (M + 1)) (L2'.take (M + 1)) (U2'.take (M + 1)) with
        | none => none
        | some left =>
          match QRAP_NC_infeasible_go fuel (a.drop (M + 1)) (l.drop (M + 1))
              (u.drop (M + 1)) (L2'.drop (M + 1)) (U2'.drop (M + 1)) with
          | none => none
          | some right => some (left ++ right)

/-- `QRAP_NC_infeasible(objective_par, lower_bound, upper_bound,
lower_nested, upper_nested)`: the infeasibility-guided solver of
Van der Klauw et al.  The recursion fuel `num_var + 1` covers every run in
which each recursive call is on a strictly shorter subsequence. -/
def QRAP_NC_infeasible (a l u L U : List ℚ) : Option (List ℚ) :=
  QRAP_NC_infeasible_go (a.length + 1) a l u L U

/-- The `2 x 2 x num_var` boundary-solution array
`result = numpy.zeros((2,2,num_var))` of `QRAP_NC_decomposition`. -/
structure MDARes where
  r00 : List ℚ
  r01 : List ℚ
  r10 : List ℚ
  r11 : List ℚ
  deriving Repr, DecidableEq

/-- Read the row `result[x][y]` of the boundary-solution array. -/
def MDARes.row (res : MDARes) (x y : ℕ) : List ℚ :=
  if x = 0 then (if y = 0 then res.r00 else res.r01)
  else (if y = 0 then res.r10 else res.r11)

/-- Replace the row `result[x][y]` of the boundary-solution array. -/
def MDARes.setRow (res : MDARes) (x y : ℕ) (v : List ℚ) : MDARes :=
  if x = 0 then
    (if y = 0 then { res with r00 := v } else { res with r01 := v })
  else (if y = 0 then { res with r10 := v } else { res with r11 := v })

/-- Python slice assignment `xs[start:start+len(vals)] = vals`. -/
def spliceList (xs : List ℚ) (start : ℕ) (vals : List ℚ) : List ℚ :=
  xs.take start ++ vals ++ xs.drop (start + vals.length)

/-- One iteration of the `for subcase in option_list` loop of `MDA`
(lines 124-173): build the merged candidate bounds from the children's
boundary solutions, derive the always-feasible alternative bounds, compute
the target resource value for the subcase, and either interpolate in closed
form (the two divisions mirror lines 165 and 169; Python raises when the
denominator is zero, the embedding uses the `x / 0 = 0` convention there) or
solve a `QRAP_median` subproblem over the merged range. -/
def MDA_subcase (a l u L U : List ℚ) (s e mid s0 s1 : ℕ) (res : MDARes) :
    MDARes :=
  let width := e + 1 - s
  let cl := ((List.range (mid + 1 - s)).map
      (fun k => (res.row s0 0).getD (s + k) 0))
    ++ ((List.range (e - mid)).map
      (fun k => (res.row 1 s1).getD (mid + 1 + k) 0))
  let cu := ((List.range (mid + 1 - s)).map
      (fun k => (res.row s0 1).getD (s + k) 0))
    ++ ((List.range (e - mid)).map
      (fun k => (res.row 0 s1).getD (mid + 1 + k) 0))
  let altl := (List.range width).map (fun j =>
    if cu.getD j 0 < l.getD (j + s) 0 then cu.getD j 0
    else if cl.getD j 0 > l.getD (j + s) 0 then cl.getD j 0
    else l.getD (j + s) 0)
  let altu := (List.range width).map (fun j =>
    if cl.getD j 0 > u.getD (j + s) 0 then cl.getD j 0
    else if cu.getD j 0 < u.getD (j + s) 0 then cu.getD j 0
    else u.getD (j + s) 0)
  let target :=
    if s = 0 then (if s1 = 0 then L.getD e 0 else U.getD e 0)
    else if s0 = 0 ∧ s1 = 0 then L.getD e 0 - L.getD (s - 1) 0
    else if s0 = 0 ∧ s1 = 1 then U.getD e 0 - L.getD (s - 1) 0
    else if s0 = 1 ∧ s1 = 0 then L.getD e 0 - U.getD (s - 1) 0
    else U.getD e 0 - U.getD (s - 1) 0
  let sumL := sumList altl
  let sumU := sumList altu
  let vals :=
    if target < sumL then
      let help := (target - sumL) / (sumList cl - sumL)
      (List.range width).map
        (fun j => altl.getD j 0 + help * (cl.getD j 0 - altl.getD j 0))
    else if target > sumU then
      let help := (target - sumU) / (sumList cu - sumU)
      (List.range width).map
        (fun j => altu.getD j 0 + help * (cu.getD j 0 - altu.getD j 0))
    else
      QRAP_median ((a.drop s).take width) altl altu target
  res.setRow s0 s1 (spliceList (res.row s0 s1) s vals)

/-- The recursive decomposition `MDA(start_index, end_index, result)`
(lines 103-174) of `QRAP_NC_decomposition`, on explicit fuel (each recursive
call halves the index range, so fuel `num_var` suffices; fuel exhaustion
returns the array unchanged and is unreachable for the supplied fuel).  Base
case `start_index == end_index` writes the four single-variable boundary
solutions (lines 105-117); the recursive case splits at
`floor((start+end)/2)` and merges the four subcases in the source's order. -/
def MDA (a l u L U : List ℚ) : ℕ → ℕ → ℕ → MDARes → MDARes
  | 0, _, _, res => res
  | fuel + 1, s, e, res =>
    if s = e then
      if s = 0 then
        let res := res.setRow 0 0 ((res.row 0 0).set s (L.getD s 0))
        let res := res.setRow 0 1 ((res.row 0 1).set s (U.getD s 0))
        let res := res.setRow 1 0 ((res.row 1 0).set s (L.getD s 0))
        res.setRow 1 1 ((res.row 1 1).set s (U.getD s 0))
      else
        let res := res.setRow 0 0
          ((res.row 0 0).set s (L.getD s 0 - L.getD (s - 1) 0))
        let res := res.setRow 0 1
          ((res.row 0 1).set s (U.getD s 0 - L.getD (s - 1) 0))
        let res := res.setRow 1 0
          ((res.row 1 0).set s (L.getD s 0 - U.getD (s - 1) 0))
        res.setRow 1 1 ((res.row 1 1).set s (U.getD s 0 - U.getD (s - 1) 0))
    else
      let mid := (s + e) / 2
      let res := MDA a l u L U fuel s mid res
      let res := MDA a l u L U fuel (mid + 1) e res
      let res := MDA_subcase a l u L U s e mid 0 0 res
      let res := MDA_subcase a l u L U s e mid 0 1 res
      let res := MDA_subcase a l u L U s e mid 1 0 res
      MDA_subcase a l u L U s e mid 1 1 res

/-- `QRAP_NC_decomposition(objective_par, lower_bound, upper_bound,
lower_nested, upper_nested)` (lines 96-177): run `MDA` on the full index
range and return the boundary solution `result[0][1]`. -/
def QRAP_NC_decomposition (a l u L U : List ℚ) : List ℚ :=
  let n := a.length
  let z := List.replicate n (0 : ℚ)
  (MDA a l u L U n 0 (n - 1) ⟨z, z, z, z⟩).r01

/-- Guarded rational division: `none` models Python's `ZeroDivisionError`. -/
def qdiv? (x y : ℚ) : Option ℚ := if y = 0 then none else some (x / y)

/-- The in-place tightening of the lower nested bounds (lines 190-192 of
`QRAP_NC_seq`): `lower_nested[j] = max(lower_nested[j], lower_nested[j-1] +
lower_bound[j])` scanned left to right.  The first argument is the already
tightened previous bound. -/
def tightL : ℚ → List ℚ → List ℚ → List ℚ
  | _, _, [] => []
  | _, [], Ls => Ls
  | prev, lj :: ls, Lj :: Ls =>
    let v := if prev + lj > Lj then prev + lj else Lj
    v :: tightL v ls Ls

/-- The in-place tightening of the upper nested bounds (lines 193-194 of
`QRAP_NC_seq`), symmetric to `tightL`. -/
def tightU : ℚ → List ℚ → List ℚ → List ℚ
  | _, _, [] => []
  | _, [], Us => Us
  | prev, uj :: us, Uj :: Us =>
    let v := if prev + uj < Uj then prev + uj else Uj
    v :: tightU v us Us

/-- The mutation footprint of a `QRAP_NC_seq` call on its caller's arrays
(lines 186-194, the only statements of the repository that write into
caller-passed lists): `lower_nested[0]` and `upper_nested[0]` are clamped
against the box bounds, then `lower_bound[0]` and `upper_bound[0]` are
overwritten with the clamped nested bounds, and finally both nested-bound
lists are tightened left to right.  Returns the final
`(lower_bound, upper_bound, lower_nested, upper_nested)`.  For empty input
(where Python raises an `IndexError`) the lists pass through unchanged. -/
def seqInit (l u L U : List ℚ) : List ℚ × List ℚ × List ℚ × List ℚ :=
  match l, u, L, U with
  | l0 :: ltl, u0 :: utl, L0 :: Ltl, U0 :: Utl =>
    let L0' := max L0 l0
    let U0' := min U0 u0
    let l0' := max L0' l0
    let u0' := min U0' u0
    (l0' :: ltl, u0' :: utl, L0' :: tightL L0' ltl Ltl, U0' :: tightU U0' utl Utl)
  | _, _, _, _ => (l, u, L, U)

/-- Elementwise guarded division of the first `n` entries (the breakpoint
initialisation of `QRAP_NC_seq`, lines 197-198). -/
def listDiv? (xs ys : List ℚ) (n : ℕ) : Option (List ℚ) :=
  (List.range n).foldr
    (fun j acc =>
      match qdiv? (xs.getD j 0) (ys.getD j 0), acc with
      | some v, some vs => some (v :: vs)
      | _, _ => none)
    (some [])

/-- The mutable state of `QRAP_NC_seq` (lines 200-228): the two optimal
multiplier arrays, the four lazily-deleted breakpoint heaps with their live
counters (`heapq` heaps of `[value, index]` pairs are modelled as lists kept
sorted by the same lexicographic order, so peeks and pops return exactly the
pairs Python returns; the max-heaps store negated values as in the source),
the two multiplier deques with their counters, the removal flags, and the
`fixed` / `free` bookkeeping arrays. -/
structure SeqSt where
  lom : List ℚ
  uom : List ℚ
  lbhMin : List (ℚ × ℕ)
  ubhMin : List (ℚ × ℕ)
  lbhMax : List (ℚ × ℕ)
  ubhMax : List (ℚ × ℕ)
  nLbh : ℤ
  nUbh : ℤ
  lomDq : List ℕ
  uomDq : List ℕ
  nLomDq : ℤ
  nUomDq : ℤ
  remL : List ℕ
  remU : List ℕ
  lfix : List ℚ
  ufix : List ℚ
  lfree : List ℚ
  ufree : List ℚ
  deriving Repr

/-- `heapq.heappush` on the sorted-list model of a heap of `[value, index]`
pairs, ordered lexicographically as in Python. -/
def heapPush (h : List (ℚ × ℕ)) (e : ℚ × ℕ) : List (ℚ × ℕ) :=
  match h with
  | [] => [e]
  | f :: t => if e.1 < f.1 ∨ (e.1 = f.1 ∧ e.2 ≤ f.2) then e :: f :: t
              else f :: heapPush t e

/-- The lazy-deletion peek loops of `QRAP_NC_seq` (`while FLAG_find_01 == 0`,
e.g. lines 334-341): pop entries whose index is flagged removed until a live
entry heads the heap; `none` models Python's `IndexError` when the heap runs
empty while its live counter is still positive. -/
def findLive (rem : List ℕ) : List (ℚ × ℕ) → Option (List (ℚ × ℕ) × ℚ × ℕ)
  | [] => none
  | e :: t => if rem.getD e.2 0 = 1 then findLive rem t
              else some (e :: t, e.1, e.2)

/-- Update the running minimum candidate of a lower breakpoint search
(`if candidate_breakpoint_value < current_minimum_value`, strict, starting
from `math.inf` = `none`); the payload is `(value, index, type)`. -/
def updMin (cur : Option (ℚ × ℕ × ℕ)) (v : ℚ) (i ty : ℕ) :
    Option (ℚ × ℕ × ℕ) :=
  match cur with
  | none => some (v, i, ty)
  | some c => if v < c.1 then some (v, i, ty) else some c

/-- Update the running maximum candidate of an upper breakpoint search
(strict `>`, starting from `-math.inf` = `none`). -/
def updMax (cur : Option (ℚ × ℕ × ℕ)) (v : ℚ) (i ty : ℕ) :
    Option (ℚ × ℕ × ℕ) :=
  match cur with
  | none => some (v, i, ty)
  | some c => if v > c.1 then some (v, i, ty) else some c

/-- Candidate selection of the lower breakpoint search (lines 330-373):
consult, in order, the live minimum of the untriggered lower-breakpoint
heap, the live minimum of the untriggered upper-breakpoint heap, the front
of the lower-multiplier deque and the front of the upper-multiplier deque;
each source is consulted only when its counter is positive.  Returns the
state (the heaps shed their stale entries during the peek) and the chosen
`(value, index, type)`, `none` when every source was empty (`math.inf`). -/
def selLower (st : SeqSt) : Option (SeqSt × Option (ℚ × ℕ × ℕ)) :=
  let s1 :=
    if st.nLbh > 0 then
      match findLive st.remL st.lbhMin with
      | none => none
      | some (h, v, i) => some ({ st with lbhMin := h }, updMin none v i 1)
    else some (st, none)
  match s1 with
  | none => none
  | some (st, cur) =>
    let s2 :=
      if st.nUbh > 0 then
        match findLive st.remU st.ubhMin with
        | none => none
        | some (h, v, i) => some ({ st with ubhMin := h }, updMin cur v i 2)
      else some (st, cur)
    match s2 with
    | none => none
    | some (st, cur) =>
      let cur :=
        if st.nLomDq > 0 then
          let i := st.lomDq.getD 0 0
          updMin cur (st.lom.getD i 0) i 3
        else cur
      let cur :=
        if st.nUomDq > 0 then
          let i := st.uomDq.getD 0 0
          updMin cur (st.uom.getD i 0) i 4
        else cur
      some (st, cur)

/-- Candidate selection of the upper breakpoint search (lines 446-488):
the live maxima of the two breakpoint heaps (whose entries store negated
values) and the backs of the two multiplier deques (indexed through the
deque counters, as in the source). -/
def selUpper (st : SeqSt) : Option (SeqSt × Option (ℚ × ℕ × ℕ)) :=
  let s1 :=
    if st.nLbh > 0 then
      match findLive st.remL st.lbhMax with
      | none => none
      | some (h, v, i) => some ({ st with lbhMax := h }, updMax none (-v) i 1)
    else some (st, none)
  match s1 with
  | none => none
  | some (st, cur) =>
    let s2 :=
      if st.nUbh > 0 then
        match findLive st.remU st.ubhMax with
        | none => none
        | some (h, v, i) => some ({ st with ubhMax := h }, updMax cur (-v) i 2)
      else some (st, cur)
    match s2 with
    | none => none
    | some (st, cur) =>
      let cur :=
        if st.nLomDq > 0 then
          let i := st.lomDq.getD (st.nLomDq - 1).toNat 0
          updMax cur (st.lom.getD i 0) i 3
        else cur
      let cur :=
        if st.nUomDq > 0 then
          let i := st.uomDq.getD (st.nUomDq - 1).toNat 0
          updMax cur (st.uom.getD i 0) i 4
        else cur
      some (st, cur)

/-- The lower breakpoint search of `QRAP_NC_seq` (`while FLAG_found == 0`,
lines 326-430), on fuel.  Each unsuccessful iteration consumes one
breakpoint from a heap or a deque and updates the running
`lower_fixed_help` / `lower_free_help` accumulators; the search closes by
writing `lower_opt_multiplier[j]` either from the matched candidate or from
`(lower_nested[j] - lower_fixed_help)/lower_free_help` (guarded division:
`none` models Python's `ZeroDivisionError` on a zero free weight). -/
def searchLower (a l' u' L' : List ℚ) (j : ℕ) :
    ℕ → ℚ → ℚ → SeqSt → Option SeqSt
  | 0, _, _, _ => none
  | fuel + 1, fixH, freeH, st =>
    match selLower st with
    | none => none
    | some (st, cur) =>
      match cur with
      | none =>
        match qdiv? (L'.getD j 0 - fixH) freeH with
        | none => none
        | some m =>
          some { st with lom := st.lom.set j m,
                         lfix := st.lfix.set j fixH,
                         lfree := st.lfree.set j freeH,
                         lomDq := j :: st.lomDq,
                         nLomDq := st.nLomDq + 1 }
      | some (v, i, ty) =>
        let S := fixH + freeH * v
        if |S - L'.getD j 0| ≤ tolQ then
          some { st with lom := st.lom.set j v,
                         lomDq := j :: st.lomDq,
                         nLomDq := st.nLomDq + 1,
                         lfix := st.lfix.set j fixH,
                         lfree := st.lfree.set j freeH }
        else if S > L'.getD j 0 then
          match qdiv? (L'.getD j 0 - fixH) freeH with
          | none => none
          | some m =>
            some { st with lom := st.lom.set j m,
                           lfix := st.lfix.set j fixH,
                           lfree := st.lfree.set j freeH,
                           lomDq := j :: st.lomDq,
                           nLomDq := st.nLomDq + 1 }
        else
          if ty = 1 then
            searchLower a l' u' L' j fuel (fixH - l'.getD i 0)
              (freeH + a.getD i 0)
              { st with remL := st.remL.set i 1,
                        lbhMin := st.lbhMin.tail,
                        nLbh := st.nLbh - 1 }
          else if ty = 2 then
            searchLower a l' u' L' j fuel (fixH + u'.getD i 0)
              (freeH - a.getD i 0)
              { st with remU := st.remU.set i 1,
                        ubhMin := st.ubhMin.tail,
                        nUbh := st.nUbh - 1 }
          else if ty = 3 then
            searchLower a l' u' L' j fuel
              (fixH - st.lfree.getD i 0 * v) (freeH + st.lfree.getD i 0)
              { st with lomDq := st.lomDq.tail,
                        nLomDq := st.nLomDq - 1 }
          else
            searchLower a l' u' L' j fuel
              (fixH + st.ufree.getD i 0 * v) (freeH - st.ufree.getD i 0)
              { st with uomDq := st.uomDq.tail,
                        nUomDq := st.nUomDq - 1 }

/-- The upper breakpoint search of `QRAP_NC_seq` (lines 441-545), symmetric
to `searchLower`: candidates are scanned in decreasing order, undershoot
closes the search, and deque breakpoints are consumed from the back. -/
def searchUpper (a l' u' U' : List ℚ) (j : ℕ) :
    ℕ → ℚ → ℚ → SeqSt → Option SeqSt
  | 0, _, _, _ => none
  | fuel + 1, fixH, freeH, st =>
    match selUpper st with
    | none => none
    | some (st, cur) =>
      match cur with
      | none =>
        match qdiv? (U'.getD j 0 - fixH) freeH with
        | none => none
        | some m =>
          some { st with uom := st.uom.set j m,
                         ufix := st.ufix.set j fixH,
                         ufree := st.ufree.set j freeH,
                         uomDq := st.uomDq ++ [j],
                         nUomDq := st.nUomDq + 1 }
      | some (v, i, ty) =>
        let S := fixH + freeH * v
        if |S - U'.getD j 0| ≤ tolQ then
          some { st with uom := st.uom.set j v,
                         uomDq := st.uomDq ++ [j],
                         nUomDq := st.nUomDq + 1,
                         ufix := st.ufix.set j fixH,
                         ufree := st.ufree.set j freeH }
        else if S < U'.getD j 0 then
          match qdiv? (U'.getD j 0 - fixH) freeH with
          | none => none
          | some m =>
            some { st with uom := st.uom.set j m,
                           ufix := st.ufix.set j fixH,
                           ufree := st.ufree.set j freeH,
                           uomDq := st.uomDq ++ [j],
                           nUomDq := st.nUomDq + 1 }
        else
          if ty = 1 then
            searchUpper a l' u' U' j fuel (fixH + l'.getD i 0)
              (freeH - a.getD i 0)
              { st with remL := st.remL.set i 1,
                        nLbh := st.nLbh - 1,
                        lbhMax := st.lbhMax.tail }
          else if ty = 2 then
            searchUpper a l' u' U' j fuel (fixH - u'.getD i 0)
              (freeH + a.getD i 0)
              { st with remU := st.remU.set i 1,
                        nUbh := st.nUbh - 1,
                        ubhMax := st.ubhMax.tail }
          else if ty = 3 then
            searchUpper a l' u' U' j fuel
              (fixH + st.lfree.getD i 0 * v) (freeH - st.lfree.getD i 0)
              { st with lomDq := st.lomDq.dropLast,
                        nLomDq := st.nLomDq - 1 }
          else
            searchUpper a l' u' U' j fuel
              (fixH - st.ufree.getD i 0 * v) (freeH + st.ufree.getD i 0)
              { st with uomDq := st.uomDq.dropLast,
                        nUomDq := st.nUomDq - 1 }

/-- One iteration `j` of the main sweep of `QRAP_NC_seq` (lines 231-545):
the initial carry-over / overshoot / undershoot checks for the lower and the
upper subproblem, the conditional insertion of the new variable's
breakpoints into the four heaps, and, when flagged, the lower and upper
breakpoint searches.  The search fuel `4 * num_var + 5` dominates the number
of breakpoints any search can consume. -/
def seqStep (a l' u' L' U' lbps ubps : List ℚ) (n : ℕ) (j : ℕ)
    (st : SeqSt) : Option SeqSt :=
  let aj := a.getD j 0
  let helpL := L'.getD (j - 1) 0
    + max (l'.getD j 0) (min (u'.getD j 0) (aj * st.lom.getD (j - 1) 0))
  let stepL : Option (SeqSt × Bool × ℚ × ℚ) :=
    if helpL = L'.getD j 0 then
      let st : SeqSt := { st with lom := st.lom.set j (st.lom.getD (j - 1) 0) }
      let st :=
        if (st.nLomDq > 0) ∧ (st.lomDq.getD 0 0 = j - 1) then
          { st with lomDq := st.lomDq.set 0 j }
        else st
      let fx := st.lfix.getD (j - 1) 0
      let fr := st.lfree.getD (j - 1) 0
      let st :=
        if st.lom.getD j 0 < lbps.getD j 0 then
          { st with lfix := st.lfix.set j (fx + l'.getD j 0),
                    lfree := st.lfree.set j fr }
        else if st.lom.getD j 0 > ubps.getD j 0 then
          { st with lfix := st.lfix.set j (fx + u'.getD j 0),
                    lfree := st.lfree.set j fr }
        else
          { st with lfix := st.lfix.set j fx,
                    lfree := st.lfree.set j (fr + aj) }
      some (st, false, 0, 0)
    else if helpL > L'.getD j 0 then
      match qdiv? (L'.getD j 0 - L'.getD (j - 1) 0) aj with
      | none => none
      | some m =>
        some ({ st with lom := st.lom.set j m,
                        lfix := st.lfix.set j (L'.getD (j - 1) 0),
                        lfree := st.lfree.set j aj,
                        lomDq := j :: st.lomDq,
                        nLomDq := st.nLomDq + 1 }, false, 0, 0)
    else
      let st :=
        if (st.nLomDq > 0) ∧ (st.lomDq.getD 0 0 = j - 1) then
          { st with lomDq := st.lomDq.tail, nLomDq := st.nLomDq - 1 }
        else st
      some (st, true, st.lfix.getD (j - 1) 0, st.lfree.getD (j - 1) 0)
  match stepL with
  | none => none
  | some (st, flagL, _, _) =>
    let helpU := U'.getD (j - 1) 0
      + max (l'.getD j 0) (min (u'.getD j 0) (aj * st.uom.getD (j - 1) 0))
    let stepU : Option (SeqSt × Bool × ℚ × ℚ) :=
      if helpU = U'.getD j 0 then
        let st : SeqSt := { st with uom := st.uom.set j (st.uom.getD (j - 1) 0) }
        let st :=
          if (st.nUomDq > 0) ∧
              (st.uomDq.getD (st.nUomDq - 1).toNat 0 = j - 1) then
            { st with uomDq := st.uomDq.set (st.nUomDq - 1).toNat j }
          else st
        let fx := st.ufix.getD (j - 1) 0
        let fr := st.ufree.getD (j - 1) 0
        let st :=
          if st.uom.getD j 0 > ubps.getD j 0 then
            { st with ufix := st.ufix.set j (fx + u'.getD j 0),
                      ufree := st.ufree.set j fr }
          else if st.uom.getD j 0 < lbps.getD j 0 then
            { st with ufix := st.ufix.set j (fx + l'.getD j 0),
                      ufree := st.ufree.set j fr }
          else
            { st with ufix := st.ufix.set j fx,
                      ufree := st.ufree.set j (fr + aj) }
        some (st, false, 0, 0)
      else if helpU < U'.getD j 0 then
        match qdiv? (U'.getD j 0 - U'.getD (j - 1) 0) aj with
        | none => none
        | some m =>
          some ({ st with uom := st.uom.set j m,
                          ufix := st.ufix.set j (U'.getD (j - 1) 0),
                          ufree := st.ufree.set j aj,
                          uomDq := st.uomDq ++ [j],
                          nUomDq := st.nUomDq + 1 }, false, 0, 0)
      else
        let st :=
          if (st.nUomDq > 0) ∧
              (st.uomDq.getD (st.nUomDq - 1).toNat 0 = j - 1) then
            { st with uomDq := st.uomDq.dropLast, nUomDq := st.nUomDq - 1 }
          else st
        some (st, true, st.ufix.getD (j - 1) 0, st.ufree.getD (j - 1) 0)
    match stepU with
    | none => none
    | some (st, flagU, _, _) =>
      let thL := if flagL = false then st.lom.getD j 0
                 else st.lom.getD (j - 1) 0
      let thU := if flagU = false then st.uom.getD j 0
                 else st.uom.getD (j - 1) 0
      let st :=
        if thL < lbps.getD j 0 - tolQ ∧ lbps.getD j 0 ≤ thU - tolQ then
          { st with nLbh := st.nLbh + 1,
                    lbhMin := heapPush st.lbhMin (lbps.getD j 0, j),
                    lbhMax := heapPush st.lbhMax (-lbps.getD j 0, j) }
        else st
      let st :=
        if thL ≤ ubps.getD j 0 - tolQ ∧ ubps.getD j 0 < thU - tolQ then
          { st with nUbh := st.nUbh + 1,
                    ubhMin := heapPush st.ubhMin (ubps.getD j 0, j),
                    ubhMax := heapPush st.ubhMax (-ubps.getD j 0, j) }
        else st
      let afterL : Option SeqSt :=
        if flagL then
          let fx := st.lfix.getD (j - 1) 0
          let fr := st.lfree.getD (j - 1) 0
          let pair :=
            if lbps.getD j 0 > st.lom.getD (j - 1) 0 then
              (fx + l'.getD j 0, fr)
            else if ubps.getD j 0 > st.lom.getD (j - 1) 0 then
              (fx, fr + aj)
            else (fx + u'.getD j 0, fr)
          searchLower a l' u' L' j (4 * n + 5) pair.1 pair.2 st
        else some st
      match afterL with
      | none => none
      | some st =>
        if flagU then
          let fx := st.ufix.getD (j - 1) 0
          let fr := st.ufree.getD (j - 1) 0
          let pair :=
            if ubps.getD j 0 < st.uom.getD (j - 1) 0 then
              (fx + u'.getD j 0, fr)
            else if lbps.getD j 0 < st.uom.getD (j - 1) 0 then
              (fx, fr + aj)
            else (fx + l'.getD j 0, fr)
          searchUpper a l' u' U' j (4 * n + 5) pair.1 pair.2 st
        else some st

/-- The backward pass of `QRAP_NC_seq` (lines 547-588): narrow the two
multiplier arrays from right to left and clip each variable at its narrowed
multiplier, producing `(opt_lower, opt_upper)`. -/
def seqBackward (a l' u' : List ℚ) (n : ℕ) (lom uom : List ℚ) :
    List ℚ × List ℚ :=
  let z := List.replicate n (0 : ℚ)
  let lonew := z.set (n - 1) (lom.getD (n - 1) 0)
  let uonew := z.set (n - 1) (uom.getD (n - 1) 0)
  let optL := z.set (n - 1)
    (max (l'.getD (n - 1) 0)
      (min (u'.getD (n - 1) 0) (a.getD (n - 1) 0 * lom.getD (n - 1) 0)))
  let optU := z.set (n - 1)
    (max (l'.getD (n - 1) 0)
      (min (u'.getD (n - 1) 0) (a.getD (n - 1) 0 * uom.getD (n - 1) 0)))
  let final :=
    (List.range (n - 1)).reverse.foldl
      (fun acc j =>
        let lonew := acc.1
        let uonew := acc.2.1
        let optL := acc.2.2.1
        let optU := acc.2.2.2
        let lnj :=
          if uom.getD j 0 ≤ lonew.getD (j + 1) 0 then uom.getD j 0
          else if lom.getD j 0 ≥ lonew.getD (j + 1) 0 then lom.getD j 0
          else lonew.getD (j + 1) 0
        let unj :=
          if uom.getD j 0 ≤ uonew.getD (j + 1) 0 then uom.getD j 0
          else if lom.getD j 0 ≥ uonew.getD (j + 1) 0 then lom.getD j 0
          else uonew.getD (j + 1) 0
        let ol :=
          if l'.getD j 0 > a.getD j 0 * lnj then l'.getD j 0
          else if u'.getD j 0 < a.getD j 0 * lnj then u'.getD j 0
          else a.getD j 0 * lnj
        let ou :=
          if l'.getD j 0 > a.getD j 0 * unj then l'.getD j 0
          else if u'.getD j 0 < a.getD j 0 * unj then u'.getD j 0
          else a.getD j 0 * unj
        (lonew.set j lnj, uonew.set j unj, optL.set j ol, optU.set j ou))
      (lonew, uonew, optL, optU)
  (final.2.2.1, final.2.2.2)

/-- `QRAP_NC_seq(objective_par, lower_bound, upper_bound, lower_nested,
upper_nested)` (lines 181-595): the sequential sweep solver of Schoot
Uiterkamp et al.  After tightening the bound arrays in place (`seqInit`),
the breakpoints are initialised, the sweep runs `j = 1 .. num_var-1`, the
backward pass narrows the multipliers, and the result is `opt_lower` when
the final nested bounds pin the total (`lower_nested[-1] ==
upper_nested[-1]`) and otherwise the clip of multiplier `0` between the two
narrowed solutions (lines 590-595).  `none` models a Python exception
(zero division, exhausted heap) or fuel exhaustion; an empty instance also
raises in Python. -/
def QRAP_NC_seq (a l u L U : List ℚ) : Option (List ℚ) :=
  let n := a.length
  if n = 0 then none
  else
    match seqInit l u L U with
    | (l', u', L', U') =>
      match listDiv? l' a n, listDiv? u' a n with
      | some lbps, some ubps =>
        let z := List.replicate n (0 : ℚ)
        let zn := List.replicate n (0 : ℕ)
        let st : SeqSt :=
          { lom := z.set 0 (lbps.getD 0 0),
            uom := z.set 0 (ubps.getD 0 0),
            lbhMin := [], ubhMin := [], lbhMax := [], ubhMax := [],
            nLbh := 0, nUbh := 0,
            lomDq := [0], uomDq := [0], nLomDq := 1, nUomDq := 1,
            remL := zn, remU := zn,
            lfix := z, ufix := z,
            lfree := z.set 0 (a.getD 0 0), ufree := z.set 0 (a.getD 0 0) }
        let run :=
          (List.range' 1 (n - 1)).foldl
            (fun acc j =>
              match acc with
              | none => none
              | some st => seqStep a l' u' L' U' lbps ubps n j st)
            (some st)
        match run with
        | none => none
        | some st =>
          let opts := seqBackward a l' u' n st.lom st.uom
          if L'.getD (n - 1) 0 = U'.getD (n - 1) 0 then some opts.1
          else
            some ((List.range n).map
              (fun j => max (opts.1.getD j 0)
                (min (opts.2.getD j 0) (a.getD j 0 * 0))))
      | _, _ => none

theorem QRAP_median_clipForm (a l u : List ℚ) (R : ℚ) :
    ∃ m : ℚ, QRAP_median a l u R = clipVec a l u m := by
  unfold QRAP_median
  cases medianRun a l u R with
  | matched m => exact ⟨m, rfl⟩
  | exhausted F G lbb => exact ⟨if G = 0 then lbb else (R - F) / G, rfl⟩
  | fuelOut F G lbb => exact ⟨if G = 0 then lbb else (R - F) / G, rfl⟩

theorem clipVec_length (a l u : List ℚ) (m : ℚ) :
    (clipVec a l u m).length = a.length := by
  simp [clipVec]

theorem clipVec_getD (a l u : List ℚ) (m : ℚ) {j : ℕ} (hj : j < a.length) :
    (clipVec a l u m).getD j 0
      = max (l.getD j 0) (min (u.getD j 0) (a.getD j 0 * m)) := by
  unfold clipVec
  rw [List.getD_eq_getElem?_getD]
  rw [List.getElem?_map]
  rw [List.getElem?_range hj]
  rfl

theorem clipVec_mem_box (a l u : List ℚ) (m : ℚ) {j : ℕ} (hj : j < a.length)
    (hlu : l.getD j 0 ≤ u.getD j 0) :
    l.getD j 0 ≤ (clipVec a l u m).getD j 0
      ∧ (clipVec a l u m).getD j 0 ≤ u.getD j 0 := by
  rw [clipVec_getD a l u m hj]
  constructor
  · exact le_max_left _ _
  · exact max_le hlu (min_le_left _ _)

theorem sumList_cons (x : ℚ) (xs : List ℚ) : sumList (x :: xs) = x + sumList xs := by
  have h : ∀ (ys : List ℚ) (c : ℚ), ys.foldl (· + ·) c = c + ys.foldl (· + ·) 0 := by
    intro ys
    induction ys with
    | nil => intro c; simp
    | cons y ys ih =>
      intro c
      simp only [List.foldl_cons]
      rw [ih (c + y), ih (0 + y)]
      ring
  unfold sumList
  simp only [List.foldl_cons]
  rw [h xs (0 + x)]
  ring

theorem sumList_le_of_pointwise :
    ∀ (xs ys : List ℚ), xs.length = ys.length →
      (∀ j, j < xs.length → xs.getD j 0 ≤ ys.getD j 0) →
      sumList xs ≤ sumList ys := by
  intro xs
  induction xs with
  | nil =>
    intro ys hlen _
    have : ys = [] := List.eq_nil_of_length_eq_zero hlen.symm
    simp [this]
  | cons x xs ih =>
    intro ys hlen hpt
    cases ys with
    | nil => simp at hlen
    | cons y ys =>
      rw [sumList_cons, sumList_cons]
      have h0 : x ≤ y := hpt 0 (by simp)
      have htl : sumList xs ≤ sumList ys := by
        apply ih ys (by simpa using hlen)
        intro j hj
        have := hpt (j + 1) (by simpa using Nat.succ_lt_succ hj)
        simpa using this
      exact add_le_add h0 htl

/-- C7: when the main loop of `QRAP_median` exits without a within-tolerance
match (no undecided variables or no candidate breakpoints remain), the
returned vector is the clip at `lambda = (R - fixed)/free`, or at the final
`lower_breakpoint_bound` when `free == 0`. -/
theorem median_exhausted_exit_formula (a l u : List ℚ) (R F G lbb : ℚ)
    (h : medianRun a l u R = MedianExit.exhausted F G lbb) :
    QRAP_median a l u R = clipVec a l u (if G = 0 then lbb else (R - F) / G) := by
  unfold QRAP_median
  rw [h]

theorem median_exhausted_exit_formula_witness :
    medianRun [1] [0] [1] 2 = MedianExit.exhausted 1 0 1
    ∧ QRAP_median [1] [0] [1] 2
        = clipVec [1] [0] [1] (if (0 : ℚ) = 0 then 1 else (2 - 1) / 0) := by
  constructor
  · with_unfolding_all decide
  · exact median_exhausted_exit_formula [1] [0] [1] 2 1 0 1
      (by with_unfolding_all decide)

/-- C10: `QRAP_median` always returns a vector of length `num_var` of the
form `max(l_j, min(u_j, a_j * lambda))` for one common multiplier, and under
the preconditions every component lies inside its box bounds. -/
theorem median_clip_form_box (a l u : List ℚ) (R : ℚ)
    (_hl : l.length = a.length) (_hu : u.length = a.length)
    (_ha : ∀ j, j < a.length → 0 < a.getD j 0)
    (hlu : ∀ j, j < a.length → l.getD j 0 ≤ u.getD j 0) :
    (QRAP_median a l u R).length = a.length
    ∧ (∃ m, QRAP_median a l u R = clipVec a l u m)
    ∧ ∀ j, j < a.length →
        l.getD j 0 ≤ (QRAP_median a l u R).getD j 0
        ∧ (QRAP_median a l u R).getD j 0 ≤ u.getD j 0 := by
  obtain ⟨m, hm⟩ := QRAP_median_clipForm a l u R
  refine ⟨by rw [hm]; exact clipVec_length a l u m, ⟨m, hm⟩, ?_⟩
  intro j hj
  rw [hm]
  exact clipVec_mem_box a l u m hj (hlu j hj)

theorem median_clip_form_box_witness :
    (QRAP_median [1] [0] [1] (1/2)).length = 1
    ∧ (∃ m, QRAP_median [1] [0] [1] (1/2) = clipVec [1] [0] [1] m)
    ∧ ∀ j, j < 1 →
        ([0] : List ℚ).getD j 0 ≤ (QRAP_median [1] [0] [1] (1/2)).getD j 0
        ∧ (QRAP_median [1] [0] [1] (1/2)).getD j 0 ≤ ([1] : List ℚ).getD j 0 := by
  have h := median_clip_form_box [1] [0] [1] (1/2) rfl rfl
    (by intro j hj
        have hj0 : j = 0 := by simpa using hj
        subst hj0
        norm_num)
    (by intro j hj
        have hj0 : j = 0 := by simpa using hj
        subst hj0
        norm_num)
  simpa using h

/-- C3 counterexample: `QRAP_median` with `R = 2` outside
`[sum(l), sum(u)] = [0, 1]` does not report infeasibility; it returns the
clipped vector `[1]`, whose sum differs from `R`. -/
theorem median_infeasible_R_counterexample :
    QRAP_median [1] [0] [1] 2 = [1]
    ∧ sumList [1] < (2 : ℚ)
    ∧ sumList (QRAP_median [1] [0] [1] 2) ≠ 2 := by
  refine ⟨by with_unfolding_all decide, by with_unfolding_all decide,
    by with_unfolding_all decide⟩

/-- C3 amended: `QRAP_median` performs no infeasibility detection.  When `R`
lies outside `[sum(l), sum(u)]` it still returns the clipped vector; the sum
of the returned vector stays inside `[sum(l), sum(u)]` and therefore
differs from `R`. -/
theorem median_sum_stays_in_box_range (a l u : List ℚ) (R : ℚ)
    (hl : l.length = a.length) (hu : u.length = a.length)
    (hlu : ∀ j, j < a.length → l.getD j 0 ≤ u.getD j 0)
    (hR : R < sumList l ∨ sumList u < R) :
    sumList l ≤ sumList (QRAP_median a l u R)
    ∧ sumList (QRAP_median a l u R) ≤ sumList u
    ∧ sumList (QRAP_median a l u R) ≠ R := by
  obtain ⟨m, hm⟩ := QRAP_median_clipForm a l u R
  have hxlen : (QRAP_median a l u R).length = a.length := by
    rw [hm]; exact clipVec_length a l u m
  have hlow : sumList l ≤ sumList (QRAP_median a l u R) := by
    apply sumList_le_of_pointwise l _ (by rw [hxlen, hl])
    intro j hj
    have hj' : j < a.length := by rwa [hl] at hj
    rw [hm]
    exact (clipVec_mem_box a l u m hj' (hlu j hj')).1
  have hhigh : sumList (QRAP_median a l u R) ≤ sumList u := by
    apply sumList_le_of_pointwise _ u (by rw [hxlen, hu])
    intro j hj
    have hj' : j < a.length := by rwa [hxlen] at hj
    rw [hm]
    exact (clipVec_mem_box a l u m hj' (hlu j hj')).2
  refine ⟨hlow, hhigh, ?_⟩
  rcases hR with hR | hR
  · exact fun hEq => absurd (hEq ▸ hlow) (not_le.mpr hR)
  · exact fun hEq => absurd (hEq ▸ hhigh) (not_le.mpr hR)

theorem median_sum_stays_in_box_range_witness :
    sumList [(0 : ℚ)] ≤ sumList (QRAP_median [1] [0] [1] 2)
    ∧ sumList (QRAP_median [1] [0] [1] 2) ≤ sumList [(1 : ℚ)]
    ∧ sumList (QRAP_median [1] [0] [1] 2) ≠ 2 :=
  median_sum_stays_in_box_range [1] [0] [1] 2 rfl rfl
    (by intro j hj
        have hj0 : j = 0 := by simpa using hj
        subst hj0
        norm_num)
    (by right; with_unfolding_all decide)

/-- C4 counterexample: `QRAP_median` on the invalid instance with
`l = [2] > u = [1]` is not rejected before solving; the call runs to
completion and returns `[2]`, which even exceeds the upper bound. -/
theorem median_invalid_instance_counterexample :
    QRAP_median [1] [2] [1] (3/2) = [2]
    ∧ ¬ (([2] : List ℚ).getD 0 0 ≤ ([1] : List ℚ).getD 0 0) := by
  refine ⟨by with_unfolding_all decide, by with_unfolding_all decide⟩

/-- C4 amended: no entry point validates its input.  Even when some box
bounds are inverted (`u_j < l_j`), `QRAP_median` computes on the data and
returns the usual clipped vector, whose entry at every inverted index
exceeds the upper bound, rather than reporting an `InvalidInstance`
error. -/
theorem median_no_input_validation (a l u : List ℚ) (R : ℚ)
    (_hinv : ∃ j, j < a.length ∧ u.getD j 0 < l.getD j 0) :
    (∃ m, QRAP_median a l u R = clipVec a l u m)
    ∧ ∀ j, j < a.length → u.getD j 0 < l.getD j 0 →
        u.getD j 0 < (QRAP_median a l u R).getD j 0 := by
  obtain ⟨m, hm⟩ := QRAP_median_clipForm a l u R
  refine ⟨⟨m, hm⟩, ?_⟩
  intro j hj hinv
  rw [hm, clipVec_getD a l u m hj]
  exact lt_of_lt_of_le hinv (le_max_left _ _)

theorem median_no_input_validation_witness :
    (∃ m, QRAP_median [1] [2] [1] (3/2) = clipVec [1] [2] [1] m)
    ∧ ∀ j, j < 1 → ([1] : List ℚ).getD j 0 < ([2] : List ℚ).getD j 0 →
        ([1] : List ℚ).getD j 0 < (QRAP_median [1] [2] [1] (3/2)).getD j 0 := by
  have h := median_no_input_validation [1] [2] [1] (3/2)
    ⟨0, by norm_num⟩
  simpa using h

/-- C9: for a single-variable instance, `QRAP_NC_infeasible` returns exactly
`[upper_nested[0]]`, regardless of the box bounds and of the lower nested
bound. -/
theorem infeasible_single_var_returns_upper (a l u L U : List ℚ)
    (ha : a.length = 1) :
    QRAP_NC_infeasible a l u L U = some [U.getD 0 0] := by
  unfold QRAP_NC_infeasible QRAP_NC_infeasible_go
  rw [ha]
  norm_num

theorem infeasible_single_var_returns_upper_witness :
    QRAP_NC_infeasible [1] [3] [4] [0] [7] = some [([7] : List ℚ).getD 0 0] :=
  infeasible_single_var_returns_upper [1] [3] [4] [0] [7] rfl

/-- C1 counterexample: on the feasible single-variable instance
`a=[1], l=[0], u=[10], L=[2], U=[5]` (the point `3` is feasible), the
divide-and-conquer and infeasibility-guided solvers return `[5]` while the
sequential sweep solver returns `[2]`; the solutions differ componentwise by
`3`, far beyond the tolerance `1e-4`. -/
theorem cross_agreement_counterexample :
    QRAP_NC_decomposition [1] [0] [10] [2] [5] = [5]
    ∧ QRAP_NC_seq [1] [0] [10] [2] [5] = some [2]
    ∧ QRAP_NC_infeasible [1] [0] [10] [2] [5] = some [5]
    ∧ (0 : ℚ) < 1 ∧ (0 : ℚ) ≤ 10 ∧ (2 : ℚ) ≤ 5
    ∧ ((0 : ℚ) ≤ 3 ∧ (3 : ℚ) ≤ 10 ∧ (2 : ℚ) ≤ 3 ∧ (3 : ℚ) ≤ 5)
    ∧ ¬ (|(5 : ℚ) - 2| ≤ 1 / 10000) := by
  refine ⟨?_, ?_, ?_, ?_, ?_, ?_, ?_, ?_⟩ <;> with_unfolding_all decide

/-- C1 amended: the three solvers do not agree within `1e-4` on every
feasible instance; what the code guarantees on single-variable instances is
agreement of the divide-and-conquer and infeasibility-guided solvers, which
both return `[upper_nested[0]]` regardless of the remaining bounds, while
the sequential solver can differ from them by more than the tolerance. -/
theorem decomposition_infeasible_agree_single_var (a0 l0 u0 L0 U0 : ℚ) :
    QRAP_NC_decomposition [a0] [l0] [u0] [L0] [U0] = [U0]
    ∧ QRAP_NC_infeasible [a0] [l0] [u0] [L0] [U0] = some [U0] :=
  ⟨rfl, rfl⟩

/-- C2 counterexample: on the feasible single-variable instance
`a=[1], l=[0], u=[1], L=[0], U=[5]` (the point `1` is feasible),
`QRAP_NC_infeasible` returns `[5]`, which violates the box bound
`x_0 <= u_0 = 1` by far more than any tolerance. -/
theorem returned_solution_infeasible_counterexample :
    QRAP_NC_infeasible [1] [0] [1] [0] [5] = some [5]
    ∧ ((0 : ℚ) ≤ 1 ∧ (1 : ℚ) ≤ 1 ∧ (0 : ℚ) ≤ 1 ∧ (1 : ℚ) ≤ 5)
    ∧ ¬ ((5 : ℚ) ≤ ([1] : List ℚ).getD 0 0) := by
  refine ⟨?_, ?_, ?_⟩ <;> with_unfolding_all decide

theorem tightL_spec (Ls : List ℚ) : ∀ (ls : List ℚ) (prev : ℚ),
    ls.length = Ls.length → ∀ k, k < Ls.length →
    (tightL prev ls Ls).getD k 0
      = max (Ls.getD k 0)
          ((if k = 0 then prev else (tightL prev ls Ls).getD (k - 1) 0)
            + ls.getD k 0) := by
  induction Ls with
  | nil => intro ls prev _ k hk; simp at hk
  | cons Lj Ls' ih =>
    intro ls prev hlen k hk
    cases ls with
    | nil => simp at hlen
    | cons lj ls' =>
      have hlen' : ls'.length = Ls'.length := by simpa using hlen
      cases k with
      | zero =>
        show (if Lj < prev + lj then prev + lj else Lj) = max Lj (prev + lj)
        by_cases h : Lj < prev + lj
        · simp [h, max_eq_right (le_of_lt h)]
        · push_neg at h
          simp [not_lt.mpr h, max_eq_left h]
      | succ k' =>
        have hk' : k' < Ls'.length := by simpa using hk
        have step :
            (tightL prev (lj :: ls') (Lj :: Ls')).getD (k' + 1) 0
              = (tightL (if Lj < prev + lj then prev + lj else Lj) ls' Ls').getD
                  k' 0 := rfl
        rw [step, ih ls' (if Lj < prev + lj then prev + lj else Lj) hlen' k' hk']
        have hgd : ∀ k'' : ℕ,
            (tightL prev (lj :: ls') (Lj :: Ls')).getD (k'' + 1 - 1) 0
              = (if k'' = 0 then (if Lj < prev + lj then prev + lj else Lj)
                 else (tightL (if Lj < prev + lj then prev + lj else Lj) ls'
                    Ls').getD (k'' - 1) 0) := by
          intro k''
          cases k'' with
          | zero => rfl
          | succ k3 => rfl
        simp only [List.getD_cons_succ, hgd k']
        simp

theorem tightU_spec (Us : List ℚ) : ∀ (us : List ℚ) (prev : ℚ),
    us.length = Us.length → ∀ k, k < Us.length →
    (tightU prev us Us).getD k 0
      = min (Us.getD k 0)
          ((if k = 0 then prev else (tightU prev us Us).getD (k - 1) 0)
            + us.getD k 0) := by
  induction Us with
  | nil => intro us prev _ k hk; simp at hk
  | cons Uj Us' ih =>
    intro us prev hlen k hk
    cases us with
    | nil => simp at hlen
    | cons uj us' =>
      have hlen' : us'.length = Us'.length := by simpa using hlen
      cases k with
      | zero =>
        show (if prev + uj < Uj then prev + uj else Uj) = min Uj (prev + uj)
        by_cases h : prev + uj < Uj
        · simp [h, min_eq_right (le_of_lt h)]
        · push_neg at h
          simp [not_lt.mpr h, min_eq_left h]
      | succ k' =>
        have hk' : k' < Us'.length := by simpa using hk
        have step :
            (tightU prev (uj :: us') (Uj :: Us')).getD (k' + 1) 0
              = (tightU (if prev + uj < Uj then prev + uj else Uj) us' Us').getD
                  k' 0 := rfl
        rw [step, ih us' (if prev + uj < Uj then prev + uj else Uj) hlen' k' hk']
        have hgd : ∀ k'' : ℕ,
            (tightU prev (uj :: us') (Uj :: Us')).getD (k'' + 1 - 1) 0
              = (if k'' = 0 then (if prev + uj < Uj then prev + uj else Uj)
                 else (tightU (if prev + uj < Uj then prev + uj else Uj) us'
                    Us').getD (k'' - 1) 0) := by
          intro k''
          cases k'' with
          | zero => rfl
          | succ k3 => rfl
        simp only [List.getD_cons_succ, hgd k']
        simp

theorem tightL_length : ∀ (Ls ls : List ℚ) (prev : ℚ),
    ls.length = Ls.length → (tightL prev ls Ls).length = Ls.length := by
  intro Ls
  induction Ls with
  | nil => intro ls prev _; cases ls <;> rfl
  | cons Lj Ls' ih =>
    intro ls prev hlen
    cases ls with
    | nil => simp at hlen
    | cons lj ls' =>
      have hlen' : ls'.length = Ls'.length := by simpa using hlen
      show (tightL _ ls' Ls').length + 1 = Ls'.length + 1
      rw [ih ls' _ hlen']

theorem tightU_length : ∀ (Us us : List ℚ) (prev : ℚ),
    us.length = Us.length → (tightU prev us Us).length = Us.length := by
  intro Us
  induction Us with
  | nil => intro us prev _; cases us <;> rfl
  | cons Uj Us' ih =>
    intro us prev hlen
    cases us with
    | nil => simp at hlen
    | cons uj us' =>
      have hlen' : us'.length = Us'.length := by simpa using hlen
      show (tightU _ us' Us').length + 1 = Us'.length + 1
      rw [ih us' _ hlen']

/-- C6 counterexample: a `QRAP_NC_seq` call on `l=[0], u=[10], L=[5], U=[7]`
overwrites the caller's box-bound arrays: after the in-place initialisation
(lines 186-189) the lower bound array is `[5]`, not the original `[0]`, and
the upper bound array is `[7]`, not `[10]`. -/
theorem seq_mutates_box_bounds_counterexample :
    (seqInit [0] [10] [5] [7]).1 = [5]
    ∧ (seqInit [0] [10] [5] [7]).1 ≠ [0]
    ∧ (seqInit [0] [10] [5] [7]).2.1 = [7]
    ∧ (seqInit [0] [10] [5] [7]).2.1 ≠ [10] := by
  refine ⟨?_, ?_, ?_, ?_⟩ <;> with_unfolding_all decide

/-- C6 amended: the arrays a caller passes to `QRAP_NC_seq` are changed only
by the initial tightening pass (lines 186-194): the nested bounds follow the
documented recurrences `L_j = max(L_j, L_{j-1} + l_j)`,
`U_j = min(U_j, U_{j-1} + u_j)` (with the index-0 clamps against the box
bounds), and, beyond the claim, the box-bound entries `l_0` and `u_0` are
also overwritten with the clamped nested bounds; every other entry of the
box bounds is untouched, all lengths are preserved, and `objective_par` is
never written. -/
theorem seq_mutation_footprint (l u L U : List ℚ)
    (hn : 0 < l.length) (hu : u.length = l.length)
    (hL : L.length = l.length) (hU : U.length = l.length) :
    ((seqInit l u L U).1.length = l.length
      ∧ (seqInit l u L U).2.1.length = l.length
      ∧ (seqInit l u L U).2.2.1.length = l.length
      ∧ (seqInit l u L U).2.2.2.length = l.length)
    ∧ ((seqInit l u L U).1.getD 0 0
          = max (max (L.getD 0 0) (l.getD 0 0)) (l.getD 0 0)
      ∧ ∀ j, 1 ≤ j → (seqInit l u L U).1.getD j 0 = l.getD j 0)
    ∧ ((seqInit l u L U).2.1.getD 0 0
          = min (min (U.getD 0 0) (u.getD 0 0)) (u.getD 0 0)
      ∧ ∀ j, 1 ≤ j → (seqInit l u L U).2.1.getD j 0 = u.getD j 0)
    ∧ ((seqInit l u L U).2.2.1.getD 0 0 = max (L.getD 0 0) (l.getD 0 0)
      ∧ ∀ j, 1 ≤ j → j < l.length →
          (seqInit l u L U).2.2.1.getD j 0
            = max (L.getD j 0)
                ((seqInit l u L U).2.2.1.getD (j - 1) 0 + l.getD j 0))
    ∧ ((seqInit l u L U).2.2.2.getD 0 0 = min (U.getD 0 0) (u.getD 0 0)
      ∧ ∀ j, 1 ≤ j → j < l.length →
          (seqInit l u L U).2.2.2.getD j 0
            = min (U.getD j 0)
                ((seqInit l u L U).2.2.2.getD (j - 1) 0 + u.getD j 0)) := by
  cases l with
  | nil => simp at hn
  | cons l0 ltl =>
  cases u with
  | nil => simp at hu
  | cons u0 utl =>
  cases L with
  | nil => simp at hL
  | cons L0 Ltl =>
  cases U with
  | nil => simp at hU
  | cons U0 Utl =>
  have h1 : utl.length = ltl.length := by simpa using hu
  have h2 : Utl.length = ltl.length := by simpa using hU
  have h3 : Ltl.length = ltl.length := by simpa using hL
  have hlenL : ltl.length = Ltl.length := h3.symm
  have hlenU : utl.length = Utl.length := by rw [h1, h2]
  refine ⟨⟨rfl, ?_, ?_, ?_⟩, ⟨rfl, ?_⟩, ⟨rfl, ?_⟩, ⟨rfl, ?_⟩, ⟨rfl, ?_⟩⟩
  · show utl.length + 1 = ltl.length + 1
    rw [h1]
  · show (tightL (max L0 l0) ltl Ltl).length + 1 = ltl.length + 1
    rw [tightL_length Ltl ltl (max L0 l0) hlenL, h3]
  · show (tightU (min U0 u0) utl Utl).length + 1 = ltl.length + 1
    rw [tightU_length Utl utl (min U0 u0) hlenU, h2]
  · intro j hj
    cases j with
    | zero => simp at hj
    | succ k => rfl
  · intro j hj
    cases j with
    | zero => simp at hj
    | succ k => rfl
  · intro j hj hjn
    cases j with
    | zero => simp at hj
    | succ k =>
      have hk : k < Ltl.length := by
        rw [← hlenL]
        simpa using hjn
      have hspec := tightL_spec Ltl ltl (max L0 l0) hlenL k hk
      have hgd : ((max L0 l0 : ℚ) :: tightL (max L0 l0) ltl Ltl).getD (k + 1 - 1) 0
          = (if k = 0 then (max L0 l0 : ℚ)
             else (tightL (max L0 l0) ltl Ltl).getD (k - 1) 0) := by
        cases k with
        | zero => rfl
        | succ k3 => rfl
      show (tightL (max L0 l0) ltl Ltl).getD k 0
        = max (Ltl.getD k 0)
            (((max L0 l0 : ℚ) :: tightL (max L0 l0) ltl Ltl).getD (k + 1 - 1) 0
              + ltl.getD k 0)
      rw [hgd, hspec]
  · intro j hj hjn
    cases j with
    | zero => simp at hj
    | succ k =>
      have hk : k < Utl.length := by
        rw [h2]
        simpa using hjn
      have hspec := tightU_spec Utl utl (min U0 u0) hlenU k hk
      have hgd : ((min U0 u0 : ℚ) :: tightU (min U0 u0) utl Utl).getD (k + 1 - 1) 0
          = (if k = 0 then (min U0 u0 : ℚ)
             else (tightU (min U0 u0) utl Utl).getD (k - 1) 0) := by
        cases k with
        | zero => rfl
        | succ k3 => rfl
      show (tightU (min U0 u0) utl Utl).getD k 0
        = min (Utl.getD k 0)
            (((min U0 u0 : ℚ) :: tightU (min U0 u0) utl Utl).getD (k + 1 - 1) 0
              + utl.getD k 0)
      rw [hgd, hspec]

theorem QRAP_NC_seq_single_var (a0 l0 u0 L0 U0 : ℚ) (ha : 0 < a0) :
    QRAP_NC_seq [a0] [l0] [u0] [L0] [U0]
      = (if max L0 l0 = min U0 u0
         then some [max (max (max L0 l0) l0)
            (min (min (min U0 u0) u0) (a0 * (max (max L0 l0) l0 / a0)))]
         else some [max
            (max (max (max L0 l0) l0)
              (min (min (min U0 u0) u0) (a0 * (max (max L0 l0) l0 / a0))))
            (min (max (max (max L0 l0) l0)
              (min (min (min U0 u0) u0) (a0 * (min (min U0 u0) u0 / a0))))
              (a0 * 0))]) := by
  have ha' : a0 ≠ 0 := ne_of_gt ha
  have ha2 : ¬ (([a0] : List ℚ).getD 0 0 = 0) := ha'
  simp only [QRAP_NC_seq, seqInit, listDiv?, qdiv?, List.length_singleton,
    List.range_succ, List.range_zero, List.nil_append, List.foldr_cons,
    List.foldr_nil, if_neg ha2]
  rfl

/-- C2 amended: on a feasible single-variable instance the sequential sweep
solver returns a solution satisfying both the box bounds and the nested
bounds; the other two solvers return `[upper_nested[0]]`, which can violate
the box bounds, so the claim as stated fails for them. -/
theorem seq_single_var_solution_feasible (a0 l0 u0 L0 U0 x : ℚ)
    (ha : 0 < a0) (hx1 : l0 ≤ x) (hx2 : x ≤ u0) (hx3 : L0 ≤ x)
    (hx4 : x ≤ U0) :
    ∃ v : ℚ, QRAP_NC_seq [a0] [l0] [u0] [L0] [U0] = some [v]
      ∧ l0 ≤ v ∧ v ≤ u0 ∧ L0 ≤ v ∧ v ≤ U0 := by
  have hLU : max L0 l0 ≤ min U0 u0 :=
    le_trans (max_le hx3 hx1) (le_min hx4 hx2)
  have hA : max (max L0 l0) l0 = max L0 l0 := by rw [max_assoc, max_self]
  have hB : min (min U0 u0) u0 = min U0 u0 := by rw [min_assoc, min_self]
  have hdiv1 : a0 * (max (max L0 l0) l0 / a0) = max (max L0 l0) l0 := by
    rw [mul_comm]
    exact div_mul_cancel₀ _ (ne_of_gt ha)
  have hdiv2 : a0 * (min (min U0 u0) u0 / a0) = min (min U0 u0) u0 := by
    rw [mul_comm]
    exact div_mul_cancel₀ _ (ne_of_gt ha)
  rw [QRAP_NC_seq_single_var a0 l0 u0 L0 U0 ha, hdiv1, hdiv2, hA, hB]
  have e1 : min (min U0 u0) (max L0 l0) = max L0 l0 := min_eq_right hLU
  by_cases hpin : max L0 l0 = min U0 u0
  · rw [if_pos hpin]
    refine ⟨max L0 l0, ?_, le_max_right L0 l0, ?_, le_max_left L0 l0, ?_⟩
    · rw [e1, max_self]
    · exact le_trans (le_of_eq hpin) (min_le_right U0 u0)
    · exact le_trans (le_of_eq hpin) (min_le_left U0 u0)
  · rw [if_neg hpin]
    refine ⟨max (max L0 l0) (min (min U0 u0) 0), ?_, ?_, ?_, ?_, ?_⟩
    · rw [e1, max_self, min_self, max_eq_right hLU, mul_zero]
    · exact le_trans (le_max_right L0 l0) (le_max_left _ _)
    · exact le_trans (max_le hLU (min_le_left _ _)) (min_le_right U0 u0)
    · exact le_trans (le_max_left L0 l0) (le_max_left _ _)
    · exact le_trans (max_le hLU (min_le_left _ _)) (min_le_left U0 u0)

theorem seq_single_var_solution_feasible_witness :
    ∃ v : ℚ, QRAP_NC_seq [1] [0] [10] [2] [5] = some [v]
      ∧ (0 : ℚ) ≤ v ∧ v ≤ 10 ∧ (2 : ℚ) ≤ v ∧ v ≤ 5 :=
  seq_single_var_solution_feasible 1 0 10 2 5 3 (by norm_num) (by norm_num)
    (by norm_num) (by norm_num) (by norm_num)

theorem seq_mutation_footprint_witness :
    (seqInit [0] [10] [5] [7]).1.getD 0 0
      = max (max (([5] : List ℚ).getD 0 0) (([0] : List ℚ).getD 0 0))
          (([0] : List ℚ).getD 0 0) :=
  (seq_mutation_footprint [0] [10] [5] [7] (by decide) rfl rfl rfl).2.1.1

theorem insortInsert_eq_orderedInsert (x : ℚ) (ys : List ℚ) :
    insortInsert x ys = List.orderedInsert (· ≤ ·) x ys := by
  induction ys with
  | nil => rfl
  | cons y ys ih =>
    show (if x ≤ y then x :: y :: ys else y :: insortInsert x ys)
      = (if x ≤ y then x :: y :: ys else y :: List.orderedInsert (· ≤ ·) x ys)
    rw [ih]

theorem insort_eq_insertionSort (xs : List ℚ) :
    insort xs = List.insertionSort (· ≤ ·) xs := by
  induction xs with
  | nil => rfl
  | cons x xs ih =>
    show insortInsert x (insort xs)
      = List.orderedInsert (· ≤ ·) x (List.insertionSort (· ≤ ·) xs)
    rw [ih, insortInsert_eq_orderedInsert]

theorem insort_sorted (xs : List ℚ) : (insort xs).Sorted (· ≤ ·) := by
  rw [insort_eq_insertionSort]
  exact List.sorted_insertionSort _ xs

theorem insort_perm (xs : List ℚ) : List.Perm (insort xs) xs := by
  rw [insort_eq_insertionSort]
  exact List.perm_insertionSort _ xs

theorem insort_length (xs : List ℚ) : (insort xs).length = xs.length :=
  (insort_perm xs).length_eq

theorem mem_of_mem_insort {xs : List ℚ} {x : ℚ} (h : x ∈ insort xs) :
    x ∈ xs :=
  (insort_perm xs).mem_iff.mp h

theorem sorted_getD_mono {s : List ℚ} (hs : s.Sorted (· ≤ ·)) {i j : ℕ}
    (hij : i ≤ j) (hj : j < s.length) : s.getD i 0 ≤ s.getD j 0 := by
  have hi : i < s.length := lt_of_le_of_lt hij hj
  rw [List.getD_eq_getElem s 0 hi, List.getD_eq_getElem s 0 hj]
  exact hs.rel_get_of_le (a := ⟨i, hi⟩) (b := ⟨j, hj⟩) hij

theorem getD_mem_self {s : List ℚ} {i : ℕ} (hi : i < s.length) :
    s.getD i 0 ∈ s := by
  rw [List.getD_eq_getElem s 0 hi]
  exact List.getElem_mem hi

theorem pymedian_def (xs : List ℚ) :
    pymedian xs = if (insort xs).length % 2 = 1
      then (insort xs).getD ((insort xs).length / 2) 0
      else ((insort xs).getD ((insort xs).length / 2 - 1) 0
            + (insort xs).getD ((insort xs).length / 2) 0) / 2 := rfl

theorem exists_pymedian_le {xs : List ℚ} (h : xs ≠ []) :
    ∃ x ∈ xs, pymedian xs ≤ x := by
  have hpos : 0 < (insort xs).length := by
    rw [insort_length xs]
    exact List.length_pos.mpr h
  have hlast : (insort xs).length - 1 < (insort xs).length := by omega
  refine ⟨(insort xs).getD ((insort xs).length - 1) 0,
    mem_of_mem_insort (getD_mem_self hlast), ?_⟩
  rw [pymedian_def]
  by_cases hpar : (insort xs).length % 2 = 1
  · rw [if_pos hpar]
    exact sorted_getD_mono (insort_sorted xs) (by omega) hlast
  · rw [if_neg hpar]
    have hle : (insort xs).getD ((insort xs).length / 2 - 1) 0
        ≤ (insort xs).getD ((insort xs).length / 2) 0 :=
      sorted_getD_mono (insort_sorted xs) (by omega) (by omega)
    have hle2 : (insort xs).getD ((insort xs).length / 2) 0
        ≤ (insort xs).getD ((insort xs).length - 1) 0 :=
      sorted_getD_mono (insort_sorted xs) (by omega) hlast
    linarith

theorem exists_le_pymedian {xs : List ℚ} (h : xs ≠ []) :
    ∃ x ∈ xs, x ≤ pymedian xs := by
  have hpos : 0 < (insort xs).length := by
    rw [insort_length xs]
    exact List.length_pos.mpr h
  refine ⟨(insort xs).getD 0 0, mem_of_mem_insort (getD_mem_self hpos), ?_⟩
  rw [pymedian_def]
  by_cases hpar : (insort xs).length % 2 = 1
  · rw [if_pos hpar]
    exact sorted_getD_mono (insort_sorted xs) (Nat.zero_le _) (by omega)
  · rw [if_neg hpar]
    have hle : (insort xs).getD ((insort xs).length / 2 - 1) 0
        ≤ (insort xs).getD ((insort xs).length / 2) 0 :=
      sorted_getD_mono (insort_sorted xs) (by omega) (by omega)
    have hle0 : (insort xs).getD 0 0
        ≤ (insort xs).getD ((insort xs).length / 2 - 1) 0 :=
      sorted_getD_mono (insort_sorted xs) (Nat.zero_le _) (by omega)
    linarith

theorem median_filter_lt_shrinks {bps : List ℚ} (h : bps ≠ []) :
    (bps.filter (fun x => decide (x < pymedian bps))).length < bps.length := by
  rw [List.length_filter_lt_length_iff_exists]
  obtain ⟨x, hx, hle⟩ := exists_pymedian_le h
  exact ⟨x, hx, by simpa using not_lt.mpr hle⟩

theorem median_filter_gt_shrinks {bps : List ℚ} (h : bps ≠ []) :
    (bps.filter (fun x => decide (x > pymedian bps))).length < bps.length := by
  rw [List.length_filter_lt_length_iff_exists]
  obtain ⟨x, hx, hle⟩ := exists_le_pymedian h
  exact ⟨x, hx, by simpa using not_lt.mpr hle⟩

theorem median_loop_ne_fuelOut (a l u lbps ubps : List ℚ) (R : ℚ) :
    ∀ (fuel : ℕ) (bps : List ℚ) (und : List ℕ) (lbb : ℚ) (ubb : Option ℚ)
      (F G : ℚ), bps.length < fuel → ∀ F' G' lbb',
      QRAP_median_loop a l u lbps ubps R fuel bps und lbb ubb F G
        ≠ MedianExit.fuelOut F' G' lbb' := by
  intro fuel
  induction fuel with
  | zero =>
    intro bps und lbb ubb F G hlt
    simp at hlt
  | succ f ih =>
    intro bps und lbb ubb F G hlt F' G' lbb'
    cases und with
    | nil => simp [QRAP_median_loop]
    | cons j und' =>
      cases bps with
      | nil => simp [QRAP_median_loop]
      | cons bp bps' =>
        have hne : (bp :: bps') ≠ ([] : List ℚ) := by simp
        have hlt' : (bp :: bps').length ≤ f := Nat.lt_succ_iff.mp hlt
        simp only [QRAP_median_loop]
        split_ifs with h1 h2
        · simp
        · apply ih
          exact lt_of_lt_of_le (median_filter_lt_shrinks hne) hlt'
        · apply ih
          exact lt_of_lt_of_le (median_filter_gt_shrinks hne) hlt'

/-- The fuel `QRAP_median` supplies to its main loop is sufficient: the
`fuelOut` outcome is unreachable, so the fuelled loop is a faithful model of
the source's `while` loop on every input. -/
theorem medianRun_ne_fuelOut (a l u : List ℚ) (R : ℚ) (F G lbb : ℚ) :
    medianRun a l u R ≠ MedianExit.fuelOut F G lbb := by
  unfold medianRun
  exact median_loop_ne_fuelOut a l u (medianBps a l) (medianBps a u) R _ _ _ _
    none 0 0 (Nat.lt_succ_self _) F G lbb
